import Mathlib

/-
Shallow embedding of the core of the reaper-portal-filechooser repository
(src/reaper_portal_fc.py, with the matching functions of
src/reaper_portal_open.py, which are line-for-line identical in the parts
embedded here): the /proc ancestor walk, the X11 parent-window resolution,
the path marshalling, the portal response handling and the event-loop wait.

External boundaries (the OS /proc tree, the output of the xprop tool, the
os.path functions and the DBus payloads) are modelled as explicit inputs:
a finite process table, per-window raw xprop output oracles, an abstract
path environment, and an explicit event trace for the GLib main loop.

The Python string primitives used by the scripts (lower/upper casing,
substring test, startswith, strip, split, int()) are given executable
definitions over character lists so that every embedded function evaluates
on concrete inputs.  Casing is ASCII (the marker strings involved are
ASCII), and strip() covers the common whitespace characters.
-/

set_option maxHeartbeats 1000000
set_option maxRecDepth 8000
set_option linter.unusedVariables false

/-- Python `needle in hay` (substring containment) on character lists. -/
def charsContain (needle : List Char) : List Char → Bool
  | [] => needle.isEmpty
  | c :: t => needle.isPrefixOf (c :: t) || charsContain needle t

/-- Python `sub in s` (substring test) for strings. -/
def strContains (s sub : String) : Bool := charsContain sub.data s.data

/-- Python `s.startswith(pre)` for strings. -/
def strStarts (s pre : String) : Bool := pre.data.isPrefixOf s.data

/-- Python `s.lower()` (ASCII). -/
def strLower (s : String) : String := ⟨s.data.map Char.toLower⟩

/-- Python `s.upper()` (ASCII). -/
def strUpper (s : String) : String := ⟨s.data.map Char.toUpper⟩

/-- Whitespace characters recognised by `strip()` / `split()`. -/
def isWsChar (c : Char) : Bool := c = ' ' || c = '\t' || c = '\n' || c = '\r'

/-- Python `s.strip()`: drop leading and trailing whitespace. -/
def strTrim (s : String) : String :=
  ⟨((s.data.dropWhile isWsChar).reverse.dropWhile isWsChar).reverse⟩

/-- Split a character list at every occurrence of `sep`, keeping empty
parts (Python `s.split(sep)` for a one-character separator). -/
def splitCharAux (sep : Char) : List Char → List Char → List (List Char)
  | [], acc => [acc.reverse]
  | c :: t, acc =>
    if c = sep then acc.reverse :: splitCharAux sep t []
    else splitCharAux sep t (c :: acc)

/-- Python `s.split(sep)` for a one-character separator, on strings. -/
def splitChar (sep : Char) (s : String) : List String :=
  (splitCharAux sep s.data []).map (fun l => ⟨l⟩)

/-- Python `s.split(sep, 1)` for a one-character separator known to occur:
the part before the first occurrence and everything after it. -/
def splitOnceChar (sep : Char) (s : String) : String × String :=
  (⟨s.data.takeWhile (fun c => c ≠ sep)⟩, ⟨(s.data.dropWhile (fun c => c ≠ sep)).drop 1⟩)

/-- Python `s.split()` (no separator): whitespace runs, no empty parts. -/
def splitWs (s : String) : List String :=
  ((splitCharAux ' ' (s.data.map fun c => if isWsChar c then ' ' else c) []).map
    (fun l => (⟨l⟩ : String))).filter (fun p => p ≠ "")

/-- Accumulate the value of a run of decimal digits, failing on any
non-digit. -/
def digitsVal (l : List Char) : Option Nat :=
  l.foldl (fun acc c =>
    match acc with
    | none => none
    | some n => if c.isDigit then some (n * 10 + (c.toNat - 48)) else none) (some 0)

/-- Python `int(s)` on an already-stripped string: optional sign and a
nonempty run of decimal digits; anything else fails (returns `none`). -/
def parseInt (s : String) : Option Int :=
  match s.data with
  | '-' :: rest => if rest.isEmpty then none else (digitsVal rest).map (fun n => -(n : Int))
  | '+' :: rest => if rest.isEmpty then none else (digitsVal rest).map (fun n => (n : Int))
  | l => if l.isEmpty then none else (digitsVal l).map (fun n => (n : Int))

/-- Value of one hex digit, `none` for a non-hex-digit character. -/
def hexVal (c : Char) : Option Nat :=
  if c.isDigit then some (c.toNat - 48)
  else if 'a' ≤ c ∧ c ≤ 'f' then some (c.toNat - 87)
  else if 'A' ≤ c ∧ c ≤ 'F' then some (c.toNat - 55)
  else none

/-- `urllib.parse.unquote` restricted to single-byte escapes: every valid
`%XX` escape becomes the character with that code, malformed escapes pass
through.  (The multi-byte UTF-8 recombination of the Python function is
not modelled; no claim depends on it.) -/
def unquoteChars : List Char → List Char
  | [] => []
  | '%' :: a :: b :: rest2 =>
    match hexVal a, hexVal b with
    | some x, some y => Char.ofNat (16 * x + y) :: unquoteChars rest2
    | _, _ => '%' :: unquoteChars (a :: b :: rest2)
  | '%' :: rest => '%' :: unquoteChars rest
  | c :: rest => c :: unquoteChars rest

/-- `unquote` on strings. -/
def unquote (s : String) : String := ⟨unquoteChars s.data⟩

/-- UTF-8 encoding of one character, as byte values. -/
def utf8Bytes (c : Char) : List Nat :=
  let n := c.toNat
  if n < 0x80 then [n]
  else if n < 0x800 then [0xC0 + n / 0x40, 0x80 + n % 0x40]
  else if n < 0x10000 then [0xE0 + n / 0x1000, 0x80 + (n / 0x40) % 0x40, 0x80 + n % 0x40]
  else [0xF0 + n / 0x40000, 0x80 + (n / 0x1000) % 0x40, 0x80 + (n / 0x40) % 0x40, 0x80 + n % 0x40]

/-- `os.fsencode(s)`: the raw UTF-8 byte representation of a string. -/
def strBytes (s : String) : List Nat := s.data.flatMap utf8Bytes

/-- One row of the (finite) process table: the fields the scripts read from
`/proc/<pid>/status`, `/proc/<pid>/comm`, `/proc/<pid>/exe` and
`/proc/<pid>/cmdline`.  Each field is independently optional: an OS-level
read failure degrades that field to `none`. -/
structure ProcInfo where
  ppid : Option Int
  comm : Option String
  exe : Option String
  cmdline : Option String

/-- The `/proc` tree as a finite association list keyed by PID. -/
abbrev ProcTable := List (Int × ProcInfo)

/-- Reading the row of one PID; a PID absent from the table reads as `none`
(the process does not exist, every per-field read fails). -/
def lookupProc (table : ProcTable) (pid : Int) : Option ProcInfo :=
  (table.find? (fun e => e.1 == pid)).map (·.2)

/-- `_ppid(pid)` of reaper_portal_fc.py (`_get_ppid` of reaper_portal_open.py). -/
def _ppid (table : ProcTable) (pid : Int) : Option Int :=
  (lookupProc table pid).bind (·.ppid)

/-- `_comm(pid)` of reaper_portal_fc.py (`_get_comm` of reaper_portal_open.py). -/
def _comm (table : ProcTable) (pid : Int) : Option String :=
  (lookupProc table pid).bind (·.comm)

/-- `_exe(pid)` of reaper_portal_fc.py (`_get_exe` of reaper_portal_open.py). -/
def _exe (table : ProcTable) (pid : Int) : Option String :=
  (lookupProc table pid).bind (·.exe)

/-- `_cmdline(pid)` of reaper_portal_fc.py (`_get_cmdline` of reaper_portal_open.py). -/
def _cmdline (table : ProcTable) (pid : Int) : Option String :=
  (lookupProc table pid).bind (·.cmdline)

/-- The command-line part of the host-affiliation test on line 151 of
reaper_portal_fc.py (line 98 of reaper_portal_open.py):
`(" reaper" in cmd) or cmd.startswith("reaper")`, applied to the
already lower-cased command line. -/
def cmd_affinity (cmd : String) : Bool :=
  strContains cmd " reaper" || strStarts cmd "reaper"

/-- The whole host-affiliation test of one ancestor PID (lines 148-151 of
reaper_portal_fc.py): case-insensitive substring test on name and exe path,
plus `cmd_affinity` on the command line. -/
def is_reaper_proc (table : ProcTable) (pid : Int) : Bool :=
  let name := strLower ((_comm table pid).getD "")
  let exe := strLower ((_exe table pid).getD "")
  let cmd := strLower ((_cmdline table pid).getD "")
  strContains name "reaper" || strContains exe "reaper" || cmd_affinity cmd

/-- Number of table keys not yet visited; the termination measure of the
ancestor walk (the walk only continues through a PID that is a key of the
finite table and has not been seen yet). -/
def unseen_keys (table : ProcTable) (seen : List Int) : Nat :=
  ((table.map Prod.fst).filter fun k => decide (k ∉ seen)).length

/-- The `while` loop of `collect_ancestors` (lines 145-153 of
reaper_portal_fc.py, lines 92-100 of reaper_portal_open.py).
The loop condition `pid and pid not in seen and pid > 0` is the guard;
when `_ppid` returns `None` the next condition check fails immediately,
so that case returns directly after the current body. -/
def ancLoop (table : ProcTable) (pid : Int) (seen anc reaper_anc : List Int) :
    List Int × List Int :=
  if h : pid ≤ 0 ∨ pid ∈ seen then (anc, reaper_anc)
  else
    let seen' := pid :: seen
    let anc' := pid :: anc
    let reaper' := if is_reaper_proc table pid then pid :: reaper_anc else reaper_anc
    match hp : _ppid table pid with
    | none => (anc', reaper')
    | some p2 => ancLoop table p2 seen' anc' reaper'
termination_by unseen_keys table seen
decreasing_by
  simp only [unseen_keys]
  have hpk : pid ∈ table.map Prod.fst := by
    unfold _ppid lookupProc at hp
    cases hfind : table.find? (fun e => e.1 == pid) with
    | none => rw [hfind] at hp; simp at hp
    | some e =>
      have hmem := List.mem_of_find?_eq_some hfind
      have hbeq := List.find?_some hfind
      have he : e.1 = pid := by simpa using hbeq
      exact List.mem_map.mpr ⟨e, hmem, he⟩
  have hps : pid ∉ seen := fun hc => h (Or.inr hc)
  have hsub : List.Sublist ((table.map Prod.fst).filter fun k => decide (k ∉ pid :: seen))
      ((table.map Prod.fst).filter fun k => decide (k ∉ seen)) := by
    apply List.monotone_filter_right
    intro a ha
    simp only [decide_eq_true_eq] at ha ⊢
    exact fun hc => ha (List.mem_cons_of_mem _ hc)
  refine Nat.lt_of_le_of_ne hsub.length_le (fun heq => ?_)
  have hEqL := hsub.eq_of_length heq
  have hmemp : pid ∈ ((table.map Prod.fst).filter fun k => decide (k ∉ seen)) := by
    simp only [List.mem_filter, decide_eq_true_eq]
    exact ⟨hpk, hps⟩
  rw [← hEqL] at hmemp
  simp only [List.mem_filter, decide_eq_true_eq] at hmemp
  exact hmemp.2 (List.mem_cons_self _ _)

/-- `collect_ancestors()` of reaper_portal_fc.py (`_collect_ancestors()` of
reaper_portal_open.py): walk up from the caller's immediate parent
(`os.getppid()`, here the explicit input `ppid0`), returning the set of
ancestor PIDs and the subset of host-affiliated ("reaper") ancestors.
The Python sets are modelled as duplicate-free lists in visit order
(most recently visited first, since new PIDs are consed on). -/
def collect_ancestors (table : ProcTable) (ppid0 : Int) : List Int × List Int :=
  ancLoop table ppid0 [] [] []

/-- Specification-side companion of the walk: the true ancestor chain of
`pid` (in visit order) paired with the number of loop-condition
evaluations the walk performs from this state.  The chain follows parent
links and stops exactly where the walk stops: a PID that is ≤ 0 or
repeats is not entered (one final check), and an unreadable parent link
ends the chain after the current PID (the body runs, then the check on
`None` fails: two checks from this state). -/
def anc_walk (table : ProcTable) (pid : Int) (seen : List Int) :
    List Int × Nat :=
  if h : pid ≤ 0 ∨ pid ∈ seen then ([], 1)
  else
    match hp : _ppid table pid with
    | none => ([pid], 2)
    | some p2 =>
      let w := anc_walk table p2 (pid :: seen)
      (pid :: w.1, w.2 + 1)
termination_by unseen_keys table seen
decreasing_by
  simp only [unseen_keys]
  have hpk : pid ∈ table.map Prod.fst := by
    unfold _ppid lookupProc at hp
    cases hfind : table.find? (fun e => e.1 == pid) with
    | none => rw [hfind] at hp; simp at hp
    | some e =>
      have hmem := List.mem_of_find?_eq_some hfind
      have hbeq := List.find?_some hfind
      have he : e.1 = pid := by simpa using hbeq
      exact List.mem_map.mpr ⟨e, hmem, he⟩
  have hps : pid ∉ seen := fun hc => h (Or.inr hc)
  have hsub : List.Sublist ((table.map Prod.fst).filter fun k => decide (k ∉ pid :: seen))
      ((table.map Prod.fst).filter fun k => decide (k ∉ seen)) := by
    apply List.monotone_filter_right
    intro a ha
    simp only [decide_eq_true_eq] at ha ⊢
    exact fun hc => ha (List.mem_cons_of_mem _ hc)
  refine Nat.lt_of_le_of_ne hsub.length_le (fun heq => ?_)
  have hEqL := hsub.eq_of_length heq
  have hmemp : pid ∈ ((table.map Prod.fst).filter fun k => decide (k ∉ seen)) := by
    simp only [List.mem_filter, decide_eq_true_eq]
    exact ⟨hpk, hps⟩
  rw [← hEqL] at hmemp
  simp only [List.mem_filter, decide_eq_true_eq] at hmemp
  exact hmemp.2 (List.mem_cons_self _ _)

/-- The window-system boundary: the raw output strings of the `xprop` tool
for the two root-window list queries and the three per-window attribute
queries, plus the matched group of the `WM_CLASS` regular-expression search
of `_wm_class_has_reaper` (`none` when the pattern does not match).
A failing `xprop` invocation yields the empty string, exactly as the
`_xprop` helper of the scripts returns `""` on any exception. -/
structure WinQuery where
  stack_raw : String
  client_raw : String
  types_raw : String → String
  transient_raw : String → String
  wm_class_val : String → Option String
  pid_raw : String → String

/-- `_parse_ids` of reaper_portal_fc.py (`_parse_hex_ids_from_xprop_list`
of reaper_portal_open.py): newline→space, split on commas, last
whitespace-delimited token of each nonempty part, keep the `0x…` ones,
lower-cased. -/
def _parse_ids (s : String) : List String :=
  ((splitChar ',' ⟨s.data.map fun c => if c = '\n' then ' ' else c⟩).map strTrim).foldr
    (fun token acc =>
      if token = "" then acc
      else
        let wid := (splitWs token).getLastD ""
        if strStarts wid "0x" then strLower wid :: acc else acc) []

/-- `_pid_of_win` of reaper_portal_fc.py (`_pid_of_window` of
reaper_portal_open.py): part after the last `=`, stripped, parsed as int. -/
def _pid_of_win (q : WinQuery) (wid : String) : Option Int :=
  let s := q.pid_raw wid
  if strContains s "=" then parseInt (strTrim ((splitChar '=' s).getLastD ""))
  else none

/-- `_types` of reaper_portal_fc.py (`_window_types` of reaper_portal_open.py). -/
def _types (q : WinQuery) (wid : String) : List String :=
  let s := q.types_raw wid
  if strContains s "=" then (splitChar ',' ((splitChar '=' s).getLastD "")).map strTrim
  else []

/-- `_is_normal` of both scripts. -/
def _is_normal (q : WinQuery) (wid : String) : Bool :=
  (_types q wid).any (fun t => strContains t "_NET_WM_WINDOW_TYPE_NORMAL")

/-- `_has_transient_for` of both scripts. -/
def _has_transient_for (q : WinQuery) (wid : String) : Bool :=
  strContains (strLower (q.transient_raw wid)) "window id"

/-- `_wm_class_has_reaper` of reaper_portal_fc.py
(`_wm_class_contains_reaper` of reaper_portal_open.py): the regex match of
the xprop output is the `wm_class_val` oracle; on a match, test whether the
lower-cased value contains the marker. -/
def _wm_class_has_reaper (q : WinQuery) (wid : String) : Bool :=
  match q.wm_class_val wid with
  | none => false
  | some v => strContains (strLower v) "reaper"

/-- The candidate-selection loop of `detect_parent_x11_via_anc`
(lines 238-258 of reaper_portal_fc.py, lines 175-197 of
reaper_portal_open.py): running best with preference 2 for a window owned
by a reaper ancestor (early break) and 1 for any other ancestor-owned
window. -/
def scan_candidates (q : WinQuery) (ancestors reaper_anc : List Int) :
    List String → Option String → Int → Option String
  | [], best, _bestPref => best
  | wid :: rest, best, bestPref =>
    if _is_normal q wid = false then scan_candidates q ancestors reaper_anc rest best bestPref
    else if _has_transient_for q wid = true then
      scan_candidates q ancestors reaper_anc rest best bestPref
    else if _wm_class_has_reaper q wid = false then
      scan_candidates q ancestors reaper_anc rest best bestPref
    else
      match _pid_of_win q wid with
      | none => scan_candidates q ancestors reaper_anc rest best bestPref
      | some pid =>
        if pid ∈ ancestors then
          let pref : Int := if pid ∈ reaper_anc then 2 else 1
          if bestPref < pref then
            if pref = 2 then some wid
            else scan_candidates q ancestors reaper_anc rest (some wid) pref
          else scan_candidates q ancestors reaper_anc rest best bestPref
        else scan_candidates q ancestors reaper_anc rest best bestPref

/-- The environment directives read by the parent resolver. -/
structure XEnv where
  xdg_session_type : Option String
  portal_no_parent : Option String
  portal_parent : Option String
  xprop_available : Bool

/-- `detect_parent_x11_via_anc` of reaper_portal_fc.py
(`detect_x11_parent_via_ancestors` of reaper_portal_open.py): the
precondition gates, the `PORTAL_PARENT` override (used only when it starts
with `"x11:"`), the ancestor walk, the stacking-order candidate list
(reversed; client list as fallback) and the selection scan. -/
def detect_parent_x11_via_anc (env : XEnv) (table : ProcTable) (ppid0 : Int)
    (q : WinQuery) : Option String :=
  if strLower ((env.xdg_session_type).getD "") = "wayland" then none
  else if env.portal_no_parent = some "1" then none
  else if env.xprop_available = false then none
  else
    let forced := (env.portal_parent).getD ""
    if forced ≠ "" ∧ strStarts forced "x11:" = true then some forced
    else
      let ar := collect_ancestors table ppid0
      let ids0 := (_parse_ids q.stack_raw).reverse
      let ids := if ids0 = [] then _parse_ids q.client_raw else ids0
      match scan_candidates q ar.1 ar.2 ids none (-1) with
      | some best => some ("x11:" ++ best)
      | none => none

/-- The os.path boundary used by the marshaller: the home directory,
tilde expansion, absolute-path normalization (no symlink resolution) and
the directory-existence test, as abstract queries. -/
structure PathEnv where
  home : String
  expand_user : String → String
  abspath_f : String → String
  is_dir : String → Bool

/-- A string's raw byte representation with a single trailing NUL byte
(the payload of the GLib `'ay'` variant built by the marshallers). -/
def strBytesNul (s : String) : List Nat := strBytes s ++ [0]

/-- `ay_dir_or_home` of reaper_portal_fc.py (lines 267-280): expanded,
absolutized (no symlink resolution); an absent or falsy path, or one that
does not name an existing directory, falls back to the home directory;
NUL-terminated byte encoding. -/
def ay_dir_or_home (E : PathEnv) (given_path : Option String) : List Nat :=
  let home := E.home
  let s :=
    match given_path with
    | some gp =>
      if gp ≠ "" then
        let p := E.abspath_f (E.expand_user gp)
        if E.is_dir p then p else home
      else home
    | none => home
  strBytesNul s

/-- `ay_file_from_path` of reaper_portal_fc.py: same normalization, no
existence check, `none` for an absent or falsy path. -/
def ay_file_from_path (E : PathEnv) (given_path : Option String) : Option (List Nat) :=
  match given_path with
  | some gp =>
    if gp ≠ "" then some (strBytesNul (E.abspath_f (E.expand_user gp))) else none
  | none => none

/-- Python-dict read (`m.get(k)`): first entry with the key (insertion
with `dput` keeps keys unique, so first = only). -/
def dget {α : Type} (m : List (String × α)) (k : String) : Option α :=
  (m.find? (fun e => e.1 == k)).map (·.2)

/-- Python-dict write (`m[k] = v`): overwrite in place or append. -/
def dput {α : Type} (m : List (String × α)) (k : String) (v : α) : List (String × α) :=
  if m.any (fun e => e.1 == k) then m.map (fun e => if e.1 == k then (k, v) else e)
  else m ++ [(k, v)]

/-- `parse_filter_arg` of reaper_portal_fc.py: `"Label|glob1;glob2;…"` →
`(label, [(0, glob), …])`, `none` if no `|`, blank label or no globs. -/
def parse_filter_arg (s : String) : Option (String × List (Nat × String)) :=
  if strContains s "|" = false then none
  else
    let lr := splitOnceChar '|' s
    let globs := ((splitChar ';' lr.2).map strTrim).filter (fun g => g ≠ "")
    if strTrim lr.1 = "" ∨ globs = [] then none
    else some (strTrim lr.1, globs.map (fun g => (0, g)))

/-- `_dupe_case_globs` of reaper_portal_fc.py: for each glob entry add the
upper- and lower-cased variants, keeping first occurrences only. -/
def _dupe_case_globs (entries : List (Nat × String)) : List (Nat × String) :=
  entries.foldl (fun out e =>
    if e.1 ≠ 0 then out
    else
      let out1 := if (e.1, strUpper e.2) ∈ out then out else out ++ [(e.1, strUpper e.2)]
      if (e.1, strLower e.2) ∈ out1 then out1 else out1 ++ [(e.1, strLower e.2)]) []

/-- The request-time `original_globs_by_label` map of `open_via_portal`
(lines 410-421 of reaper_portal_fc.py): for each parsable `--filter`
argument, record the original glob strings under their label. -/
def build_original_globs (filter_args : List String) : List (String × List String) :=
  filter_args.foldl (fun ob f =>
    match parse_filter_arg f with
    | none => ob
    | some lab_entries =>
      dput ob lab_entries.1
        ((lab_entries.2.filter (fun e => e.1 == 0)).map (·.2))) []

/-- `_unpack_current_filter` of reaper_portal_fc.py: label plus the glob
values of the kind-0 entries, globs `none` when that list is empty. -/
def _unpack_current_filter (cf : String × List (Nat × String)) :
    Option String × Option (List String) :=
  let globs := (cf.2.filter (fun e => e.1 == 0)).map (·.2)
  (some cf.1, if globs = [] then none else some globs)

/-- The `lc_map` built inside `_map_backend_globs_to_originals`:
lower-cased glob → first original with that lower-casing. -/
def lc_first_map (originals : List String) : List (String × String) :=
  originals.foldl (fun m og =>
    if (dget m (strLower og)).isNone then m ++ [(strLower og, og)] else m) []

/-- `_map_backend_globs_to_originals` of reaper_portal_fc.py
(lines 495-515): map each backend-reported glob back to the first original
whose lower-cased form matches; unmappable globs pass through; degenerate
inputs return the backend globs unchanged. -/
def _map_backend_globs_to_originals (ob : List (String × List String))
    (label : Option String) (backend_globs : Option (List String)) :
    Option (List String) :=
  match label, backend_globs with
  | some l, some gs =>
    if l = "" ∨ gs = [] then backend_globs
    else
      match dget ob l with
      | none => some gs
      | some originals =>
        if originals = [] then some gs
        else some (gs.map (fun g => (dget (lc_first_map originals) (strLower g)).getD g))
  | _, _ => backend_globs

/-- The two response shapes the service may use for the `choices`
attribute (key→value mapping or list of pairs), plus anything else
(which the handler ignores). -/
inductive ChoicesIn where
  | dict_shape (kvs : List (String × String))
  | list_shape (kvs : List (String × String))
  | other_shape
deriving DecidableEq

/-- The attribute mapping of one `Response` signal, restricted to the
attributes the handler reads. -/
structure Payload where
  uris : List String
  choices : ChoicesIn
  current_filter : Option (String × List (Nat × String))
deriving DecidableEq

/-- Normalizing choice pairs to `{id: bool}` (string `"true"` → `true`),
later duplicates overwriting earlier ones, as in a Python dict build. -/
def choice_pairs_to_map (kvs : List (String × String)) : List (String × Bool) :=
  kvs.foldl (fun m kv => dput m kv.1 (kv.2 == "true")) []

/-- The mutable `result` record of `open_via_portal`. -/
structure ResultRec where
  paths : List String
  choices : List (String × Bool)
  selected_filter_label : Option String
  selected_filter_globs : Option (List String)
  done : Bool
deriving DecidableEq

/-- The initial `result` record (lines 466-472 of reaper_portal_fc.py). -/
def initResult : ResultRec :=
  { paths := [], choices := [], selected_filter_label := none,
    selected_filter_globs := none, done := false }

/-- URI → path mapping of the handler: strip `file://` and percent-decode,
other URIs pass through unchanged. -/
def uri_to_path (uri : String) : String :=
  if strStarts uri "file://" then unquote ⟨uri.data.drop 7⟩ else uri

/-- The body of the `on_resp` handler of `open_via_portal`
(lines 517-553 of reaper_portal_fc.py) for a `Response` signal carrying
`(code, a)`: on status 0 extract paths, choices and (for SaveFile) the
selected filter mapped back to original casing; on any non-zero status
only set `done`.  `ob` is the request-time label→original-globs map. -/
def on_resp_update (ob : List (String × List String)) (method_is_save : Bool)
    (code : Nat) (a : Payload) (r : ResultRec) : ResultRec :=
  if code = 0 then
    let r1 := { r with paths := r.paths ++ a.uris.map uri_to_path }
    let r2 :=
      match a.choices with
      | ChoicesIn.dict_shape kvs => { r1 with choices := choice_pairs_to_map kvs }
      | ChoicesIn.list_shape kvs => { r1 with choices := choice_pairs_to_map kvs }
      | ChoicesIn.other_shape => r1
    let r3 :=
      if method_is_save then
        match a.current_filter with
        | none => r2
        | some cf =>
          let lab_globs := _unpack_current_filter cf
          { r2 with
            selected_filter_label := lab_globs.1,
            selected_filter_globs :=
              _map_backend_globs_to_originals ob lab_globs.1 lab_globs.2 }
      else r2
    { r3 with done := true }
  else { r with done := true }

/-- One wake-up of the GLib main loop: a DBus signal delivered to the
request proxy, or the armed timeout firing. -/
inductive PortalEv where
  | sig (name : String) (code : Nat) (a : Payload)
  | timer_fire
deriving DecidableEq

/-- The loop state: the result record and whether `loop.quit()` has run. -/
structure LoopState where
  res : ResultRec
  quitted : Bool
deriving DecidableEq

/-- `args.timeout and args.timeout > 0` (line 558 of reaper_portal_fc.py,
line 296 of reaper_portal_open.py): the timeout callback is registered
only for a truthy, strictly positive timeout; 0 arms nothing. -/
def timer_armed (timeout : Int) : Bool :=
  decide (¬ timeout = 0) && decide (0 < timeout)

/-- Dispatch of one event against the loop state.  After `loop.quit()` the
blocking `loop.run()` has returned and `open_via_portal` has handed the
result out, so later events no longer change it.  A signal other than
`Response` returns without quitting; the `on_resp` handler always quits
(its `finally`); the timeout callback quits only when `done` is not yet
set. -/
def dispatch_event (ob : List (String × List String)) (method_is_save : Bool)
    (armed : Bool) (st : LoopState) (e : PortalEv) : LoopState :=
  if st.quitted then st
  else
    match e with
    | PortalEv.sig name code a =>
      if name ≠ "Response" then st
      else { res := on_resp_update ob method_is_save code a st.res, quitted := true }
    | PortalEv.timer_fire =>
      if armed = false then st
      else if st.res.done then st
      else { res := { st.res with done := true }, quitted := true }

/-- The wait of `open_via_portal`: process the wake-ups in order. -/
def run_loop (ob : List (String × List String)) (method_is_save : Bool) (armed : Bool)
    (events : List PortalEv) (st : LoopState) : LoopState :=
  events.foldl (dispatch_event ob method_is_save armed) st

/-- The JSON record written by `main` on its success path. -/
structure OutRec where
  path : Option String
  paths : List String
  choices : List (String × Bool)
  selected_filter_label : Option String
  selected_filter_globs : Option (List String)
deriving DecidableEq

/-- The success path of `main` (lines 613-625 of reaper_portal_fc.py):
`paths` from the result, `path` its first element or null, exit code 0. -/
def main_out (r : ResultRec) : OutRec × Nat :=
  let paths := r.paths
  ({ path := paths.head?, paths := paths, choices := r.choices,
     selected_filter_label := r.selected_filter_label,
     selected_filter_globs := r.selected_filter_globs }, 0)

/-- Concrete process table used as a fixture: a synthetic PID-reuse cycle
(5's parent is 6, 6's parent is 5 again). -/
def tableW : ProcTable :=
  [(5, ⟨some 6, some "reaper", none, none⟩), (6, ⟨some 5, none, none, none⟩)]

/-- Fixture: a window query with no windows and empty xprop output. -/
def qEmpty : WinQuery :=
  { stack_raw := "", client_raw := "", types_raw := fun _ => "",
    transient_raw := fun _ => "", wm_class_val := fun _ => none,
    pid_raw := fun _ => "" }

/-- Fixture: one stacked window that matches every textual filter but
whose owning PID cannot be read. -/
def q_w1 : WinQuery :=
  { stack_raw := "_NET_CLIENT_LIST_STACKING(WINDOW): window id # 0x1",
    client_raw := "",
    types_raw := fun _ => "_NET_WM_WINDOW_TYPE(ATOM) = _NET_WM_WINDOW_TYPE_NORMAL",
    transient_raw := fun _ => "",
    wm_class_val := fun _ => some "reaper",
    pid_raw := fun _ => "" }

/-- Fixture environment: X11 session, no directives, xprop present. -/
def env_w1 : XEnv :=
  { xdg_session_type := some "x11", portal_no_parent := none,
    portal_parent := none, xprop_available := true }

/-- Fixture: two qualifying windows, `0xa` owned by PID 10 and `0xb` owned
by PID 20. -/
def q_w2 : WinQuery :=
  { stack_raw := "", client_raw := "",
    types_raw := fun _ => "_NET_WM_WINDOW_TYPE(ATOM) = _NET_WM_WINDOW_TYPE_NORMAL",
    transient_raw := fun _ => "",
    wm_class_val := fun _ => some "reaper",
    pid_raw := fun wid =>
      if wid = "0xa" then "_NET_WM_PID(CARDINAL) = 10" else "_NET_WM_PID(CARDINAL) = 20" }

/-- Fixture path environment: the empty string normalizes to the existing
directory `/work` (as Python's `abspath("")` is the current working
directory), while the home directory is `/home/user`. -/
def cexPathEnv : PathEnv :=
  { home := "/home/user",
    expand_user := fun s => s,
    abspath_f := fun s => if s = "" then "/work" else s,
    is_dir := fun p => p == "/work" }

/-- Fixture environment: every gate passes and the forced-parent override
carries a non-x11 value. -/
def env_cex9 : XEnv :=
  { xdg_session_type := some "x11", portal_no_parent := none,
    portal_parent := some "wayland:HANDLE", xprop_available := true }

/-- Fixture environment: every gate passes and the forced-parent override
carries an x11 value. -/
def env_w9 : XEnv :=
  { xdg_session_type := some "x11", portal_no_parent := none,
    portal_parent := some "x11:0x123", xprop_available := true }

/-- Fixture: request-time original-globs map of one `--filter` argument. -/
def obW : List (String × List String) :=
  build_original_globs ["REAPER Project files|*.RPP"]

/-- Fixture: a completion payload reporting the case-duplicated variant
`*.rpp` of the original `*.RPP` as the active filter. -/
def payloadW : Payload :=
  { uris := [], choices := ChoicesIn.other_shape,
    current_filter := some ("REAPER Project files", [(0, "*.rpp")]) }

theorem ancLoop_stop (table : ProcTable) (pid : Int) (seen anc reap : List Int)
    (h : pid ≤ 0 ∨ pid ∈ seen) : ancLoop table pid seen anc reap = (anc, reap) := by
  rw [ancLoop.eq_def, dif_pos h]

theorem ancLoop_last (table : ProcTable) (pid : Int) (seen anc reap : List Int)
    (h : ¬(pid ≤ 0 ∨ pid ∈ seen)) (hp : _ppid table pid = none) :
    ancLoop table pid seen anc reap
      = (pid :: anc, if is_reaper_proc table pid then pid :: reap else reap) := by
  rw [ancLoop.eq_def, dif_neg h]
  split
  · split
    · rfl
    · rename_i p2' hp2
      rw [hp] at hp2
      cases hp2
  · split
    · rfl
    · rename_i p2' hp2
      rw [hp] at hp2
      cases hp2

theorem ancLoop_step (table : ProcTable) (pid p2 : Int) (seen anc reap : List Int)
    (h : ¬(pid ≤ 0 ∨ pid ∈ seen)) (hp : _ppid table pid = some p2) :
    ancLoop table pid seen anc reap
      = ancLoop table p2 (pid :: seen) (pid :: anc)
          (if is_reaper_proc table pid then pid :: reap else reap) := by
  rw [ancLoop.eq_def, dif_neg h]
  split
  · split
    · rename_i hp2
      rw [hp] at hp2
      cases hp2
    · rename_i p2' hp2
      rw [hp] at hp2
      cases hp2
      rfl
  · split
    · rename_i hp2
      rw [hp] at hp2
      cases hp2
    · rename_i p2' hp2
      rw [hp] at hp2
      cases hp2
      rfl

theorem anc_walk_stop (table : ProcTable) (pid : Int) (seen : List Int)
    (h : pid ≤ 0 ∨ pid ∈ seen) : anc_walk table pid seen = ([], 1) := by
  rw [anc_walk.eq_def, dif_pos h]

theorem anc_walk_last (table : ProcTable) (pid : Int) (seen : List Int)
    (h : ¬(pid ≤ 0 ∨ pid ∈ seen)) (hp : _ppid table pid = none) :
    anc_walk table pid seen = ([pid], 2) := by
  rw [anc_walk.eq_def, dif_neg h]
  split
  · rfl
  · rename_i p2 hp2
    rw [hp] at hp2
    cases hp2

theorem anc_walk_step (table : ProcTable) (pid p2 : Int) (seen : List Int)
    (h : ¬(pid ≤ 0 ∨ pid ∈ seen)) (hp : _ppid table pid = some p2) :
    anc_walk table pid seen
      = ((pid :: (anc_walk table p2 (pid :: seen)).1,
          (anc_walk table p2 (pid :: seen)).2 + 1)) := by
  rw [anc_walk.eq_def, dif_neg h]
  split
  · rename_i hp2
    rw [hp] at hp2
    cases hp2
  · rename_i p2' hp2
    rw [hp] at hp2
    cases hp2
    rfl

/-- C10: on the success path, the singular `path` field of the written
record is exactly the first element of its `paths` list when that list is
nonempty and null when it is empty; the two fields are never
inconsistent. -/
theorem C10_path_matches_paths (r : ResultRec) :
    ((main_out r).1.paths = [] → (main_out r).1.path = none)
    ∧ (∀ x xs, (main_out r).1.paths = x :: xs → (main_out r).1.path = some x) := by
  constructor
  · intro h
    simp only [main_out] at h ⊢
    rw [h]
    rfl
  · intro x xs h
    simp only [main_out] at h ⊢
    rw [h]
    rfl

theorem C10_witness :
    ((main_out { initResult with paths := ["/a"] }).1.path = some "/a")
    ∧ ((main_out initResult).1.path = none) :=
  ⟨(C10_path_matches_paths { initResult with paths := ["/a"] }).2 "/a" [] rfl,
   (C10_path_matches_paths initResult).1 rfl⟩

/-- C3: a completion signal with a non-zero status code produces the empty
result record (no paths, no choices, no filter) marked done, and the main
success path turns it into the normal empty output record with exit
code 0 — not a failure. -/
theorem C3_nonzero_status_is_empty_normal (ob : List (String × List String))
    (method_is_save : Bool) (code : Nat) (a : Payload) (h : code ≠ 0) :
    on_resp_update ob method_is_save code a initResult = { initResult with done := true }
    ∧ main_out { initResult with done := true }
      = ({ path := none, paths := [], choices := [], selected_filter_label := none,
           selected_filter_globs := none }, 0) := by
  constructor
  · simp [on_resp_update, h]
  · rfl

theorem C3_witness :
    on_resp_update [] false 2 (Payload.mk ["file:///a"] ChoicesIn.other_shape none) initResult
      = { initResult with done := true } :=
  (C3_nonzero_status_is_empty_normal [] false 2
    (Payload.mk ["file:///a"] ChoicesIn.other_shape none) (by decide)).1

/-- C8 counterexample: the empty string is a present (non-absent) input
whose expanded, normalized form names an existing directory (Python's
`abspath("")` is the current working directory), yet the marshaller
returns the home-directory encoding, not that directory's encoding. -/
theorem C8_cex :
    cexPathEnv.is_dir (cexPathEnv.abspath_f (cexPathEnv.expand_user "")) = true
    ∧ ay_dir_or_home cexPathEnv (some "")
        ≠ strBytesNul (cexPathEnv.abspath_f (cexPathEnv.expand_user ""))
    ∧ ay_dir_or_home cexPathEnv (some "") = strBytesNul cexPathEnv.home := by
  refine ⟨by decide, by decide, by decide⟩

/-- C8 amended: when the given path is absent or empty, the output is the
home directory's NUL-terminated byte encoding; when the given path is
nonempty and its expanded, normalized form names an existing directory,
the output is that normalized path's NUL-terminated encoding; when it
does not, the output falls back to the home encoding. -/
theorem C8_dir_or_default (E : PathEnv) (given : Option String) :
    (given = none ∨ given = some "" → ay_dir_or_home E given = strBytesNul E.home)
    ∧ (∀ gp, given = some gp → gp ≠ "" →
        E.is_dir (E.abspath_f (E.expand_user gp)) = true →
        ay_dir_or_home E given = strBytesNul (E.abspath_f (E.expand_user gp)))
    ∧ (∀ gp, given = some gp → gp ≠ "" →
        E.is_dir (E.abspath_f (E.expand_user gp)) = false →
        ay_dir_or_home E given = strBytesNul E.home) := by
  refine ⟨?_, ?_, ?_⟩
  · rintro (rfl | rfl)
    · rfl
    · simp [ay_dir_or_home]
  · intro gp hg hne hdir
    subst hg
    simp [ay_dir_or_home, hne, hdir]
  · intro gp hg hne hdir
    subst hg
    simp [ay_dir_or_home, hne, hdir]

theorem C8_witness :
    ay_dir_or_home cexPathEnv (some "/work")
      = strBytesNul (cexPathEnv.abspath_f (cexPathEnv.expand_user "/work"))
    ∧ ay_dir_or_home cexPathEnv none = strBytesNul cexPathEnv.home :=
  ⟨(C8_dir_or_default cexPathEnv (some "/work")).2.1 "/work" rfl (by decide) (by decide),
   (C8_dir_or_default cexPathEnv none).1 (Or.inl rfl)⟩

theorem collect_ancestors_nil_7 : collect_ancestors ([] : ProcTable) 7 = ([7], []) := by
  rw [collect_ancestors, ancLoop_last _ _ _ _ _ (by decide) (by decide)]
  decide

/-- C9 counterexample: with every precondition gate passing and the
forced-parent override set to `"wayland:HANDLE"`, the resolver ignores
the override (it only honours overrides starting with `"x11:"`) and
resolves to no parent instead of returning the override verbatim. -/
theorem C9_cex :
    env_cex9.portal_parent = some "wayland:HANDLE"
    ∧ strLower ((env_cex9.xdg_session_type).getD "") ≠ "wayland"
    ∧ env_cex9.portal_no_parent ≠ some "1"
    ∧ env_cex9.xprop_available = true
    ∧ detect_parent_x11_via_anc env_cex9 [] 7 qEmpty = none := by
  refine ⟨rfl, by decide, by decide, rfl, ?_⟩
  simp only [detect_parent_x11_via_anc]
  rw [collect_ancestors_nil_7]
  decide

/-- C9 amended: when the precondition gates have not short-circuited and
the forced-parent override is present, nonempty and begins with the
`"x11:"` discriminator, the resolver returns the override verbatim,
skipping ancestor and window resolution entirely; an override not of that
form is ignored and resolution proceeds. -/
theorem C9_forced_override_verbatim (env : XEnv) (table : ProcTable) (ppid0 : Int)
    (q : WinQuery) (forced : String)
    (hsess : strLower ((env.xdg_session_type).getD "") ≠ "wayland")
    (hnp : env.portal_no_parent ≠ some "1")
    (hx : env.xprop_available = true)
    (hf : env.portal_parent = some forced)
    (hne : forced ≠ "")
    (hpre : strStarts forced "x11:" = true) :
    detect_parent_x11_via_anc env table ppid0 q = some forced := by
  simp only [detect_parent_x11_via_anc, hf, hx, Option.getD_some]
  rw [if_neg hsess, if_neg hnp, if_neg (by simp), if_pos ⟨hne, hpre⟩]

theorem C9_witness :
    detect_parent_x11_via_anc env_w9 [] 7 qEmpty = some "x11:0x123" :=
  C9_forced_override_verbatim env_w9 [] 7 qEmpty "x11:0x123"
    (by decide) (by decide) rfl rfl (by decide) (by decide)

theorem isPrefixOf_iff_append (n h : List Char) :
    n.isPrefixOf h = true ↔ ∃ t, h = n ++ t := by
  induction n generalizing h with
  | nil =>
    simp [List.isPrefixOf]
  | cons c n ih =>
    cases h with
    | nil =>
      simp [List.isPrefixOf]
    | cons d t =>
      simp only [List.isPrefixOf, Bool.and_eq_true, beq_iff_eq]
      constructor
      · rintro ⟨rfl, hp⟩
        obtain ⟨t2, rfl⟩ := (ih t).mp hp
        exact ⟨t2, rfl⟩
      · rintro ⟨t2, he⟩
        injection he with h1 h2
        subst h1
        exact ⟨rfl, (ih t).mpr ⟨t2, h2⟩⟩

theorem charsContain_iff_append (n : List Char) :
    ∀ h : List Char, charsContain n h = true ↔ ∃ p t, h = p ++ n ++ t := by
  intro h
  induction h with
  | nil =>
    rw [charsContain]
    constructor
    · intro he
      have hn : n = [] := by simpa using he
      exact ⟨[], [], by simp [hn]⟩
    · rintro ⟨p, t, he⟩
      have h2 := List.append_eq_nil.mp he.symm
      have h3 := List.append_eq_nil.mp h2.1
      simp [h3.2]
  | cons c hs ih =>
    rw [charsContain]
    simp only [Bool.or_eq_true]
    constructor
    · rintro (hp | hc)
      · obtain ⟨t, ht⟩ := (isPrefixOf_iff_append n (c :: hs)).mp hp
        exact ⟨[], t, by simpa using ht⟩
      · obtain ⟨p, t, ht⟩ := ih.mp hc
        exact ⟨c :: p, t, by simp [ht]⟩
    · rintro ⟨p, t, ht⟩
      cases p with
      | nil =>
        left
        exact (isPrefixOf_iff_append n (c :: hs)).mpr ⟨t, by simpa using ht⟩
      | cons d p2 =>
        right
        injection ht with h1 h2
        exact ih.mpr ⟨p2, t, h2⟩

/-- C6 counterexample: in `"foo reaperista"` the marker occurs only inside
the unrelated word `"reaperista"` — it is not a standalone
whitespace-delimited token and not a prefix of the whole command line —
yet the command-line affinity test flags it, because `" reaper"` is a
substring. -/
theorem C6_cex :
    cmd_affinity "foo reaperista" = true
    ∧ strStarts "foo reaperista" "reaper" = false
    ∧ ((splitWs "foo reaperista").contains "reaper") = false := by
  refine ⟨by decide, by decide, by decide⟩

/-- C6 amended: the command-line affinity test flags exactly the command
lines with an occurrence of the marker at the start of the line or
immediately after a space character.  Occurrences strictly inside a word
(not word-initial) never flag on their own, but a word-initial occurrence
inside a longer unrelated word (e.g. `" reaperista"`) does flag. -/
theorem C6_cmd_affinity_word_initial (cmd : String) :
    cmd_affinity cmd = true ↔
      ∃ pre suf : List Char, cmd.data = pre ++ "reaper".data ++ suf
        ∧ (pre = [] ∨ ∃ pre2, pre = pre2 ++ [' ']) := by
  rw [cmd_affinity]
  simp only [Bool.or_eq_true, strContains, strStarts]
  rw [charsContain_iff_append, isPrefixOf_iff_append]
  constructor
  · rintro (⟨p, t, he⟩ | ⟨t, he⟩)
    · refine ⟨p ++ [' '], t, ?_, Or.inr ⟨p, rfl⟩⟩
      rw [he]
      simp
    · exact ⟨[], t, by simpa using he, Or.inl rfl⟩
  · rintro ⟨pre, suf, he, (rfl | ⟨pre2, rfl⟩)⟩
    · right
      exact ⟨suf, by simpa using he⟩
    · left
      refine ⟨pre2, suf, ?_⟩
      rw [he]
      simp

theorem C6_witness :
    cmd_affinity "foo reaperista" = true :=
  (C6_cmd_affinity_word_initial "foo reaperista").mpr
    ⟨"foo ".data, "ista".data, by decide, Or.inr ⟨"foo".data, by decide⟩⟩

theorem str_ext (s t : String) (h : s.data = t.data) : s = t := by
  cases s
  cases t
  exact congrArg String.mk h

theorem scan_good (q : WinQuery) (ancestors reaper_anc : List Int) :
    ∀ (ids : List String) (best : Option String) (bestPref : Int),
      (∀ b, best = some b → ∃ p, _pid_of_win q b = some p ∧ p ∈ ancestors) →
      ∀ w, scan_candidates q ancestors reaper_anc ids best bestPref = some w →
        ∃ p, _pid_of_win q w = some p ∧ p ∈ ancestors := by
  intro ids
  induction ids with
  | nil =>
    intro best bestPref hbest w hscan
    simp only [scan_candidates] at hscan
    exact hbest w hscan
  | cons wid rest ih =>
    intro best bestPref hbest w hscan
    simp only [scan_candidates] at hscan
    by_cases h1 : _is_normal q wid = false
    · rw [if_pos h1] at hscan
      exact ih best bestPref hbest w hscan
    rw [if_neg h1] at hscan
    by_cases h2 : _has_transient_for q wid = true
    · rw [if_pos h2] at hscan
      exact ih best bestPref hbest w hscan
    rw [if_neg h2] at hscan
    by_cases h3 : _wm_class_has_reaper q wid = false
    · rw [if_pos h3] at hscan
      exact ih best bestPref hbest w hscan
    rw [if_neg h3] at hscan
    cases hpid : _pid_of_win q wid with
    | none =>
      simp only [hpid] at hscan
      exact ih best bestPref hbest w hscan
    | some pid =>
      simp only [hpid] at hscan
      by_cases h4 : pid ∈ ancestors
      · rw [if_pos h4] at hscan
        by_cases h5 : pid ∈ reaper_anc
        · rw [if_pos h5] at hscan
          by_cases h6 : bestPref < 2
          · rw [if_pos h6, if_pos rfl] at hscan
            cases hscan
            exact ⟨pid, hpid, h4⟩
          · rw [if_neg h6] at hscan
            exact ih best bestPref hbest w hscan
        · rw [if_neg h5] at hscan
          by_cases h6 : bestPref < 1
          · rw [if_pos h6, if_neg (by norm_num)] at hscan
            refine ih (some wid) 1 ?_ w hscan
            intro b hb
            cases hb
            exact ⟨pid, hpid, h4⟩
          · rw [if_neg h6] at hscan
            exact ih best bestPref hbest w hscan
      · rw [if_neg h4] at hscan
        exact ih best bestPref hbest w hscan

/-- C1: a candidate window whose owning PID is absent, or is not a member
of the ancestor set computed by `collect_ancestors`, is never returned as
the ParentToken by the resolver — stated for a resolver run without the
forced-parent override, which bypasses candidate selection entirely. -/
theorem C1_unrelated_window_never_chosen (env : XEnv) (table : ProcTable)
    (ppid0 : Int) (q : WinQuery) (wid : String)
    (hforce : env.portal_parent = none)
    (hbad : ∀ p, _pid_of_win q wid = some p → p ∉ (collect_ancestors table ppid0).1) :
    detect_parent_x11_via_anc env table ppid0 q ≠ some ("x11:" ++ wid) := by
  intro hdet
  simp only [detect_parent_x11_via_anc, hforce, Option.getD_none] at hdet
  split at hdet
  · cases hdet
  split at hdet
  · cases hdet
  split at hdet
  · cases hdet
  split at hdet
  · rename_i hcond
    exact hcond.1 rfl
  split at hdet
  · rename_i best heq
    have hbw : best = wid := by
      apply str_ext
      have hdata := congrArg String.data (Option.some.inj hdet)
      rw [String.data_append, String.data_append] at hdata
      exact List.append_cancel_left hdata
    subst hbw
    obtain ⟨p, hp, hpm⟩ :=
      scan_good q (collect_ancestors table ppid0).1 (collect_ancestors table ppid0).2 _
        none (-1) (fun b hb => Option.noConfusion hb) best heq
    exact hbad p hp hpm
  · cases hdet

theorem C1_witness :
    detect_parent_x11_via_anc env_w1 [] 7 q_w1 ≠ some ("x11:" ++ "0x1") :=
  C1_unrelated_window_never_chosen env_w1 [] 7 q_w1 "0x1" rfl (by
    intro p hp
    rw [show _pid_of_win q_w1 "0x1" = none from by decide] at hp
    cases hp)

theorem scan_pref2 (q : WinQuery) (ancestors reaper_anc : List Int) :
    ∀ (ids : List String) (best : Option String) (bestPref : Int),
      bestPref < 2 →
      ∀ w2 p2, w2 ∈ ids →
        _is_normal q w2 = true → _has_transient_for q w2 = false →
        _wm_class_has_reaper q w2 = true →
        _pid_of_win q w2 = some p2 → p2 ∈ ancestors → p2 ∈ reaper_anc →
        ∃ w p, scan_candidates q ancestors reaper_anc ids best bestPref = some w
          ∧ _pid_of_win q w = some p ∧ p ∈ ancestors ∧ p ∈ reaper_anc := by
  intro ids
  induction ids with
  | nil =>
    intro best bestPref hlt w2 p2 hmem
    cases hmem
  | cons wid rest ih =>
    intro best bestPref hlt w2 p2 hmem hn ht hc hp ha hr
    simp only [scan_candidates]
    rcases List.mem_cons.mp hmem with rfl | hmem2
    · rw [if_neg (by simp [hn]), if_neg (by simp [ht]), if_neg (by simp [hc])]
      simp only [hp]
      rw [if_pos ha, if_pos hr, if_pos hlt, if_pos rfl]
      exact ⟨w2, p2, rfl, hp, ha, hr⟩
    · by_cases h1 : _is_normal q wid = false
      · rw [if_pos h1]
        exact ih best bestPref hlt w2 p2 hmem2 hn ht hc hp ha hr
      rw [if_neg h1]
      by_cases h2 : _has_transient_for q wid = true
      · rw [if_pos h2]
        exact ih best bestPref hlt w2 p2 hmem2 hn ht hc hp ha hr
      rw [if_neg h2]
      by_cases h3 : _wm_class_has_reaper q wid = false
      · rw [if_pos h3]
        exact ih best bestPref hlt w2 p2 hmem2 hn ht hc hp ha hr
      rw [if_neg h3]
      cases hpid : _pid_of_win q wid with
      | none =>
        simp only [hpid]
        exact ih best bestPref hlt w2 p2 hmem2 hn ht hc hp ha hr
      | some pid =>
        simp only [hpid]
        by_cases h4 : pid ∈ ancestors
        · rw [if_pos h4]
          by_cases h5 : pid ∈ reaper_anc
          · rw [if_pos h5]
            rw [if_pos hlt, if_pos rfl]
            exact ⟨wid, pid, rfl, hpid, h4, h5⟩
          · rw [if_neg h5]
            by_cases h6 : bestPref < 1
            · rw [if_pos h6, if_neg (by norm_num)]
              exact ih (some wid) 1 (by norm_num) w2 p2 hmem2 hn ht hc hp ha hr
            · rw [if_neg h6]
              exact ih best bestPref hlt w2 p2 hmem2 hn ht hc hp ha hr
        · rw [if_neg h4]
          exact ih best bestPref hlt w2 p2 hmem2 hn ht hc hp ha hr

/-- C2: with a qualifying window owned by a host-affiliated ancestor
(score 2) and a qualifying window owned by a merely-related ancestor
(score 1) both in the candidate list, the selection scan returns a
score-2 window, regardless of the relative order of the two windows. -/
theorem C2_prefers_host_affiliated (q : WinQuery) (ancestors reaper_anc : List Int)
    (ids : List String) (w2 w1 : String) (p2 p1 : Int)
    (hw2 : w2 ∈ ids) (hn2 : _is_normal q w2 = true)
    (ht2 : _has_transient_for q w2 = false) (hc2 : _wm_class_has_reaper q w2 = true)
    (hp2 : _pid_of_win q w2 = some p2) (ha2 : p2 ∈ ancestors) (hr2 : p2 ∈ reaper_anc)
    (hw1 : w1 ∈ ids) (hn1 : _is_normal q w1 = true)
    (ht1 : _has_transient_for q w1 = false) (hc1 : _wm_class_has_reaper q w1 = true)
    (hp1 : _pid_of_win q w1 = some p1) (ha1 : p1 ∈ ancestors) (hr1 : p1 ∉ reaper_anc) :
    ∃ w p, scan_candidates q ancestors reaper_anc ids none (-1) = some w
      ∧ _pid_of_win q w = some p ∧ p ∈ ancestors ∧ p ∈ reaper_anc :=
  scan_pref2 q ancestors reaper_anc ids none (-1) (by norm_num)
    w2 p2 hw2 hn2 ht2 hc2 hp2 ha2 hr2

theorem C2_witness :
    ∃ w p, scan_candidates q_w2 [10, 20] [20] ["0xa", "0xb"] none (-1) = some w
      ∧ _pid_of_win q_w2 w = some p ∧ p ∈ [(10 : Int), 20] ∧ p ∈ [(20 : Int)] :=
  C2_prefers_host_affiliated q_w2 [10, 20] [20] ["0xa", "0xb"] "0xb" "0xa" 20 10
    (by decide) (by decide) (by decide) (by decide) (by decide) (by decide) (by decide)
    (by decide) (by decide) (by decide) (by decide) (by decide) (by decide) (by decide)

theorem dget_append {α : Type} (m1 m2 : List (String × α)) (k : String) :
    dget (m1 ++ m2) k = (dget m1 k).or (dget m2 k) := by
  simp only [dget, List.find?_append]
  cases m1.find? (fun e => e.1 == k) <;> simp [Option.or]

theorem lc_fold_lookup (originals : List String) :
    ∀ (m : List (String × String)) (k : String),
      dget (originals.foldl (fun m og =>
          if (dget m (strLower og)).isNone then m ++ [(strLower og, og)] else m) m) k
        = (dget m k).or (originals.find? (fun og => strLower og == k)) := by
  induction originals with
  | nil =>
    intro m k
    simp [List.find?]
  | cons og rest ih =>
    intro m k
    rw [List.foldl_cons, ih]
    cases hdg : dget m (strLower og) with
    | none =>
      rw [if_pos (by simp [hdg]), dget_append]
      by_cases hc : (strLower og == k) = true
      · have hk : strLower og = k := by simpa using hc
        subst hk
        rw [hdg]
        have hsing : dget [(strLower og, og)] (strLower og) = some og := by
          simp [dget, List.find?]
        rw [hsing, List.find?_cons]
        simp [hc]
      · have hc' : (strLower og == k) = false := by simpa using hc
        have hsing : dget [(strLower og, og)] k = none := by
          simp [dget, List.find?, hc']
        rw [hsing, List.find?_cons]
        simp [hc']
    | some v =>
      rw [if_neg (by simp [hdg])]
      by_cases hc : (strLower og == k) = true
      · have hk : strLower og = k := by simpa using hc
        subst hk
        rw [hdg, List.find?_cons]
        simp [hc]
      · have hc' : (strLower og == k) = false := by simpa using hc
        rw [List.find?_cons]
        simp [hc']

theorem lc_first_map_spec (originals : List String) (k : String) :
    dget (lc_first_map originals) k = originals.find? (fun og => strLower og == k) := by
  rw [lc_first_map, lc_fold_lookup originals [] k]
  simp [dget, List.find?]

/-- C5: for a SaveFile completion with status 0 whose payload reports the
active filter under a label supplied at request time, the final record's
glob list is the backend-reported globs mapped back through the
request-time originals: each backend glob becomes the first original glob
whose lower-cased form matches it, and a glob with no match passes
through verbatim — so a case-duplicated variant is reported back in the
caller's original casing. -/
theorem C5_filter_globs_original_casing (ob : List (String × List String))
    (l : String) (entries : List (Nat × String)) (originals : List String) (a : Payload)
    (hcf : a.current_filter = some (l, entries))
    (hl : l ≠ "")
    (hgs : (entries.filter (fun e => e.1 == 0)).map (fun e => e.2) ≠ [])
    (hlook : dget ob l = some originals)
    (hor : originals ≠ []) :
    (on_resp_update ob true 0 a initResult).selected_filter_globs
      = some (((entries.filter (fun e => e.1 == 0)).map (fun e => e.2)).map
          (fun g => ((originals.find? (fun og => strLower og == strLower g)).getD g))) := by
  have hun : _unpack_current_filter (l, entries)
      = (some l, some ((entries.filter (fun e => e.1 == 0)).map (fun e => e.2))) := by
    simp [_unpack_current_filter, hgs]
  have hmap : _map_backend_globs_to_originals ob (some l)
      (some ((entries.filter (fun e => e.1 == 0)).map (fun e => e.2)))
      = some (((entries.filter (fun e => e.1 == 0)).map (fun e => e.2)).map
          (fun g => ((originals.find? (fun og => strLower og == strLower g)).getD g))) := by
    simp [_map_backend_globs_to_originals, hl, hgs, hlook, hor, lc_first_map_spec]
  simp [on_resp_update, hcf, hun, hmap]

theorem C5_witness :
    (on_resp_update obW true 0 payloadW initResult).selected_filter_globs = some ["*.RPP"]
    ∧ (0, "*.rpp") ∈ _dupe_case_globs [(0, "*.RPP")] := by
  constructor
  · have h := C5_filter_globs_original_casing obW "REAPER Project files" [(0, "*.rpp")]
      ["*.RPP"] payloadW rfl (by decide) (by decide) (by decide) (by decide)
    rw [h]
    decide
  · decide

theorem dispatch_frozen (ob : List (String × List String)) (ms armed : Bool)
    (st : LoopState) (e : PortalEv) (h : st.quitted = true) :
    dispatch_event ob ms armed st e = st := by
  simp [dispatch_event, h]

theorem run_loop_frozen (ob : List (String × List String)) (ms armed : Bool)
    (events : List PortalEv) (st : LoopState) (h : st.quitted = true) :
    run_loop ob ms armed events st = st := by
  induction events with
  | nil => rfl
  | cons e rest ih =>
    simp only [run_loop, List.foldl_cons]
    rw [dispatch_frozen ob ms armed st e h]
    exact ih

theorem dispatch_neutral (ob : List (String × List String)) (ms armed : Bool)
    (st : LoopState) (e : PortalEv)
    (hsig : ∀ n c a, e = PortalEv.sig n c a → n ≠ "Response")
    (htimer : e = PortalEv.timer_fire → armed = false) :
    dispatch_event ob ms armed st e = st := by
  cases e with
  | sig n c a =>
    have hn := hsig n c a rfl
    simp [dispatch_event, hn]
  | timer_fire =>
    have ha := htimer rfl
    simp [dispatch_event, ha]

theorem run_loop_neutral (ob : List (String × List String)) (ms armed : Bool) :
    ∀ (events : List PortalEv) (st : LoopState),
      (∀ e ∈ events, ∀ st' : LoopState, dispatch_event ob ms armed st' e = st') →
      run_loop ob ms armed events st = st := by
  intro events
  induction events with
  | nil =>
    intro st h
    rfl
  | cons e rest ih =>
    intro st h
    simp only [run_loop, List.foldl_cons]
    rw [h e (List.mem_cons_self e rest) st]
    exact ih st (fun e' he' st' => h e' (List.mem_cons_of_mem e he') st')

theorem run_loop_times_out (ob : List (String × List String)) (ms : Bool) :
    ∀ events : List PortalEv,
      (∀ n c a, PortalEv.sig n c a ∈ events → n ≠ "Response") →
      PortalEv.timer_fire ∈ events →
      run_loop ob ms true events (LoopState.mk initResult false)
        = LoopState.mk { initResult with done := true } true := by
  intro events
  induction events with
  | nil =>
    intro _ hmem
    cases hmem
  | cons e rest ih =>
    intro hsig hmem
    cases e with
    | timer_fire =>
      simp only [run_loop, List.foldl_cons]
      have hd : dispatch_event ob ms true (LoopState.mk initResult false) PortalEv.timer_fire
          = LoopState.mk { initResult with done := true } true := by
        simp [dispatch_event, initResult]
      rw [hd]
      exact run_loop_frozen ob ms true rest _ rfl
    | sig n c a =>
      have hn := hsig n c a (List.mem_cons_self _ _)
      simp only [run_loop, List.foldl_cons]
      rw [dispatch_neutral ob ms true _ _
        (fun n' c' a' he => by cases he; exact hn) (fun he => by cases he)]
      have hmem2 : PortalEv.timer_fire ∈ rest := by
        cases List.mem_cons.mp hmem with
        | inl h' => cases h'
        | inr h' => exact h'
      exact ih (fun n' c' a' h' => hsig n' c' a' (List.mem_cons_of_mem _ h')) hmem2

/-- C4: the wait reaches exactly one terminal outcome.  A timeout of
exactly zero arms no timer, and with no completion signal the wait is
still pending after any trace of other wake-ups (never an immediate
timeout).  A strictly positive timeout with no completion signal before
the deadline terminates at the timer with the empty result.  After either
terminal transition every later event — a late signal after the timeout,
or a late timer after completion — leaves the state unchanged, so
whichever of signal and deadline fires first wins. -/
theorem C4_wait_terminal_outcomes (timeout : Int) (ob : List (String × List String))
    (ms : Bool) (events : List PortalEv) :
    (timeout = 0 → timer_armed timeout = false)
    ∧ (timeout = 0 →
        (∀ n c a, PortalEv.sig n c a ∈ events → n ≠ "Response") →
        run_loop ob ms (timer_armed timeout) events (LoopState.mk initResult false)
          = LoopState.mk initResult false)
    ∧ (0 < timeout →
        (∀ n c a, PortalEv.sig n c a ∈ events → n ≠ "Response") →
        PortalEv.timer_fire ∈ events →
        run_loop ob ms (timer_armed timeout) events (LoopState.mk initResult false)
          = LoopState.mk { initResult with done := true } true)
    ∧ (∀ (st : LoopState) (e : PortalEv), st.quitted = true →
        dispatch_event ob ms (timer_armed timeout) st e = st)
    ∧ (∀ (pre post : List PortalEv) (c : Nat) (a : Payload),
        (∀ n c2 a2, PortalEv.sig n c2 a2 ∈ pre → n ≠ "Response") →
        PortalEv.timer_fire ∉ pre →
        run_loop ob ms (timer_armed timeout)
            (pre ++ PortalEv.sig "Response" c a :: post) (LoopState.mk initResult false)
          = LoopState.mk (on_resp_update ob ms c a initResult) true) := by
  refine ⟨?_, ?_, ?_, ?_, ?_⟩
  · intro h0
    subst h0
    rfl
  · intro h0 hsig
    subst h0
    have harm : timer_armed 0 = false := rfl
    rw [harm]
    apply run_loop_neutral
    intro e he st'
    apply dispatch_neutral
    · intro n c a hea
      subst hea
      exact hsig n c a he
    · intro _
      rfl
  · intro hpos hsig hmem
    have harm : timer_armed timeout = true := by
      simp [timer_armed]
      omega
    rw [harm]
    exact run_loop_times_out ob ms events hsig hmem
  · intro st e h
    exact dispatch_frozen ob ms _ st e h
  · intro pre post c a hsig hnt
    have hpre : run_loop ob ms (timer_armed timeout) pre (LoopState.mk initResult false)
        = LoopState.mk initResult false := by
      apply run_loop_neutral
      intro e he st'
      apply dispatch_neutral
      · intro n c2 a2 hea
        subst hea
        exact hsig n c2 a2 he
      · intro hea
        subst hea
        exact absurd he hnt
    have hd : dispatch_event ob ms (timer_armed timeout) (LoopState.mk initResult false)
        (PortalEv.sig "Response" c a)
        = LoopState.mk (on_resp_update ob ms c a initResult) true := by
      simp [dispatch_event]
    calc run_loop ob ms (timer_armed timeout)
          (pre ++ PortalEv.sig "Response" c a :: post) (LoopState.mk initResult false)
        = run_loop ob ms (timer_armed timeout) (PortalEv.sig "Response" c a :: post)
            (run_loop ob ms (timer_armed timeout) pre (LoopState.mk initResult false)) := by
          simp [run_loop, List.foldl_append]
      _ = run_loop ob ms (timer_armed timeout) post
            (LoopState.mk (on_resp_update ob ms c a initResult) true) := by
          rw [hpre]
          simp only [run_loop, List.foldl_cons]
          rw [hd]
      _ = LoopState.mk (on_resp_update ob ms c a initResult) true :=
          run_loop_frozen ob ms _ post _ rfl

theorem C4_witness :
    run_loop [] false (timer_armed 5) [PortalEv.timer_fire] (LoopState.mk initResult false)
      = LoopState.mk { initResult with done := true } true :=
  (C4_wait_terminal_outcomes 5 [] false [PortalEv.timer_fire]).2.2.1 (by norm_num)
    (by intro n c a h; simp at h) (by simp)

theorem ancLoop_eq_walk : ∀ (table : ProcTable) (pid : Int) (seen : List Int),
    ∀ (anc reap : List Int),
      ancLoop table pid seen anc reap
        = ((anc_walk table pid seen).1.reverse ++ anc,
           ((anc_walk table pid seen).1.filter
             (fun p => is_reaper_proc table p)).reverse ++ reap) := by
  intro table pid seen
  induction pid, seen using anc_walk.induct with
  | table => exact table
  | case1 pid seen h =>
    intro anc reap
    rw [ancLoop_stop _ _ _ _ _ h, anc_walk_stop _ _ _ h]
    simp
  | case2 pid seen h hp =>
    intro anc reap
    rw [ancLoop_last _ _ _ _ _ h hp, anc_walk_last _ _ _ h hp]
    by_cases hr : is_reaper_proc table pid
    · simp [hr, List.filter_cons]
    · simp [hr, List.filter_cons]
  | case3 pid seen h p2 hp ih =>
    intro anc reap
    rw [ancLoop_step _ _ p2 _ _ _ h hp, anc_walk_step _ _ p2 _ h hp, ih]
    by_cases hr : is_reaper_proc table pid
    · simp [hr, List.filter_cons, List.reverse_cons, List.append_assoc]
    · simp [hr, List.filter_cons, List.reverse_cons, List.append_assoc]

theorem anc_walk_mem_not_seen : ∀ (table : ProcTable) (pid : Int) (seen : List Int),
    ∀ x ∈ (anc_walk table pid seen).1, x ∉ seen := by
  intro table pid seen
  induction pid, seen using anc_walk.induct with
  | table => exact table
  | case1 pid seen h =>
    rw [anc_walk_stop _ _ _ h]
    intro x hx
    cases hx
  | case2 pid seen h hp =>
    rw [anc_walk_last _ _ _ h hp]
    intro x hx
    have hxp : x = pid := by simpa using hx
    subst hxp
    exact fun hc => h (Or.inr hc)
  | case3 pid seen h p2 hp ih =>
    rw [anc_walk_step _ _ p2 _ h hp]
    intro x hx
    have hx2 : x = pid ∨ x ∈ (anc_walk table p2 (pid :: seen)).1 := by simpa using hx
    cases hx2 with
    | inl hxp =>
      subst hxp
      exact fun hc => h (Or.inr hc)
    | inr hx3 =>
      have := ih x hx3
      exact fun hc => this (List.mem_cons_of_mem _ hc)

theorem anc_walk_nodup : ∀ (table : ProcTable) (pid : Int) (seen : List Int),
    (anc_walk table pid seen).1.Nodup := by
  intro table pid seen
  induction pid, seen using anc_walk.induct with
  | table => exact table
  | case1 pid seen h =>
    rw [anc_walk_stop _ _ _ h]
    exact List.nodup_nil
  | case2 pid seen h hp =>
    rw [anc_walk_last _ _ _ h hp]
    simp
  | case3 pid seen h p2 hp ih =>
    rw [anc_walk_step _ _ p2 _ h hp]
    show (pid :: (anc_walk table p2 (pid :: seen)).1).Nodup
    rw [List.nodup_cons]
    refine ⟨fun hc => ?_, ih⟩
    exact anc_walk_mem_not_seen table p2 (pid :: seen) pid hc (List.mem_cons_self _ _)

theorem anc_walk_pos : ∀ (table : ProcTable) (pid : Int) (seen : List Int),
    ∀ x ∈ (anc_walk table pid seen).1, 0 < x := by
  intro table pid seen
  induction pid, seen using anc_walk.induct with
  | table => exact table
  | case1 pid seen h =>
    rw [anc_walk_stop _ _ _ h]
    intro x hx
    cases hx
  | case2 pid seen h hp =>
    rw [anc_walk_last _ _ _ h hp]
    intro x hx
    have hxp : x = pid := by simpa using hx
    subst hxp
    have h1 : ¬ x ≤ 0 := fun hc => h (Or.inl hc)
    omega
  | case3 pid seen h p2 hp ih =>
    rw [anc_walk_step _ _ p2 _ h hp]
    intro x hx
    have hx2 : x = pid ∨ x ∈ (anc_walk table p2 (pid :: seen)).1 := by simpa using hx
    cases hx2 with
    | inl hxp =>
      subst hxp
      have h1 : ¬ x ≤ 0 := fun hc => h (Or.inl hc)
      omega
    | inr hx3 =>
      exact ih x hx3

theorem anc_walk_steps : ∀ (table : ProcTable) (pid : Int) (seen : List Int),
    (anc_walk table pid seen).2 = (anc_walk table pid seen).1.length + 1 := by
  intro table pid seen
  induction pid, seen using anc_walk.induct with
  | table => exact table
  | case1 pid seen h =>
    rw [anc_walk_stop _ _ _ h]
    rfl
  | case2 pid seen h hp =>
    rw [anc_walk_last _ _ _ h hp]
    rfl
  | case3 pid seen h p2 hp ih =>
    rw [anc_walk_step _ _ p2 _ h hp]
    show (anc_walk table p2 (pid :: seen)).2 + 1
      = (pid :: (anc_walk table p2 (pid :: seen)).1).length + 1
    rw [ih]
    simp

/-- C7: the ancestor walk visits exactly the true acyclic ancestor chain
from the caller's immediate parent (in reverse cons order), performs
exactly chain-length + 1 loop-condition evaluations — at most N+1 steps
for true chain depth N, even for tables with cyclic parent links from PID
reuse — never visits the same PID twice, only visits strictly positive
PIDs, returns immediately when the start PID is ≤ 0, and starts from the
immediate parent. -/
theorem C7_walk_visits_chain_once (table : ProcTable) (ppid0 : Int) :
    (collect_ancestors table ppid0).1 = (anc_walk table ppid0 []).1.reverse
    ∧ (anc_walk table ppid0 []).2 = (anc_walk table ppid0 []).1.length + 1
    ∧ (collect_ancestors table ppid0).1.Nodup
    ∧ (∀ p ∈ (collect_ancestors table ppid0).1, 0 < p)
    ∧ (ppid0 ≤ 0 → collect_ancestors table ppid0 = ([], []))
    ∧ (0 < ppid0 → ppid0 ∈ (collect_ancestors table ppid0).1) := by
  have heq := ancLoop_eq_walk table ppid0 [] [] []
  have h1 : (collect_ancestors table ppid0).1 = (anc_walk table ppid0 []).1.reverse := by
    rw [collect_ancestors, heq]
    simp
  refine ⟨h1, anc_walk_steps table ppid0 [], ?_, ?_, ?_, ?_⟩
  · rw [h1]
    exact List.nodup_reverse.mpr (anc_walk_nodup table ppid0 [])
  · intro p hp
    rw [h1] at hp
    exact anc_walk_pos table ppid0 [] p (List.mem_reverse.mp hp)
  · intro hle
    rw [collect_ancestors]
    exact ancLoop_stop table ppid0 [] [] [] (Or.inl hle)
  · intro hpos
    rw [h1, List.mem_reverse]
    have hg : ¬(ppid0 ≤ 0 ∨ ppid0 ∈ ([] : List Int)) := by
      simp
      omega
    cases hp : _ppid table ppid0 with
    | none =>
      rw [anc_walk_last table ppid0 [] hg hp]
      simp
    | some p2 =>
      rw [anc_walk_step table ppid0 p2 [] hg hp]
      simp

theorem C7_witness :
    (collect_ancestors tableW 5).1.Nodup
    ∧ (anc_walk tableW 5 []).2 = (anc_walk tableW 5 []).1.length + 1
    ∧ 5 ∈ (collect_ancestors tableW 5).1 :=
  ⟨(C7_walk_visits_chain_once tableW 5).2.2.1,
   (C7_walk_visits_chain_once tableW 5).2.1,
   (C7_walk_visits_chain_once tableW 5).2.2.2.2.2 (by norm_num)⟩
